import Mathlib

/-!
# Verification of the SFLA KMZ/KML sync tool (`sync_kmz.py`)

Shallow embedding of the reconciliation core of `sync_kmz.py`:
the KML geometry parser (`parse_kml`), the coordinate-tolerance
comparison (`coords_changed`), the diff of the current shape
collection against the incoming one (`added` / `removed` /
`modified` / `unchanged`), the never-delete merge performed on
`--apply`, and the batched Airtable record creation.

Python floats are modelled as `ℚ`; a Python `float(...)` call that can
raise `ValueError` is modelled as a `Token := Option ℚ` (with `none`
for a non-numeric literal), and exception propagation is modelled with
`Except Unit`.  Python `dict`s keyed by shape name are modelled as
association lists with insertion-order semantics (`dictInsert` updates
an existing key in place, otherwise appends).  Python's `sorted` on
strings is modelled by insertion sort under code-point lexicographic
order.
-/

namespace Sfla

/-- Result of Python `float(text)`: `some q` for a numeric literal,
`none` when the call would raise `ValueError`. -/
abbrev Token := Option ℚ

/-- A polygon feature as stored in `shapes.js`:
`{"name": …, "coords": …, "center": …}`. -/
structure Shape where
  name : String
  coords : List (ℚ × ℚ)
  center : ℚ × ℚ
deriving DecidableEq

/-- A GPS point feature: `{"name": …, "lat": …, "lng": …}`. -/
structure GpsPoint where
  name : String
  lat : ℚ
  lng : ℚ
deriving DecidableEq

/-- A route feature: `{"name": …, "coords": …}`. -/
structure Route where
  name : String
  coords : List (ℚ × ℚ)
deriving DecidableEq

/-- The geometry part of a `<Placemark>` block, as discriminated by the
`'<Polygon>' in p` / `'<Point>' in p` / `'<LineString>' in p` chain.
For polygon and line-string records the optional coordinates block is
kept as whitespace-split tokens, each further comma-split
(`coords_raw.group(1).strip().split()` then `c.split(',')`); for point
records it is the comma-split parts of the whole block
(`coords_raw.group(1).strip().split(',')`).  `none` models a record
with no `<coordinates>` tag. -/
inductive Geometry where
  | polygon (block : Option (List (List Token)))
  | point (block : Option (List Token))
  | lineString (block : Option (List (List Token)))
  | other
deriving DecidableEq

/-- One `<Placemark>…</Placemark>` record; `name` is the content of the
optional `<name>` tag. -/
structure Placemark where
  name : Option String
  geom : Geometry
deriving DecidableEq

/-- `name_m.group(1).strip() if name_m else 'unnamed'`. -/
def pmName (nm : Option String) : String :=
  match nm with
  | some s => s.trim
  | none => "unnamed"

/-- `float(part)`: yields the parsed rational or raises. -/
def parseNum (t : Token) : Except Unit ℚ :=
  match t with
  | some q => .ok q
  | none => .error ()

/-- The coordinate loop shared by the Polygon and LineString branches:
for each whitespace-separated token `c`, `parts = c.split(',')`; when
`len(parts) >= 2` append `[float(parts[1]), float(parts[0])]`
(swapping lon,lat to [lat, lng]), otherwise skip the token. -/
def parsePairs : List (List Token) → Except Unit (List (ℚ × ℚ))
  | [] => .ok []
  | c :: cs =>
    if h : 2 ≤ c.length then do
      let lat ← parseNum (c.get ⟨1, by omega⟩)
      let lng ← parseNum (c.get ⟨0, by omega⟩)
      let rest ← parsePairs cs
      .ok ((lat, lng) :: rest)
    else parsePairs cs

/-- `round(x, 6)` on the mean values (decimal rounding to 6 places). -/
def round6 (q : ℚ) : ℚ := (round (q * 1000000) : ℚ) / 1000000

/-- `center = [round(sum(lats)/len(lats), 6), round(sum(lngs)/len(lngs), 6)]`. -/
def shapeCenter (cs : List (ℚ × ℚ)) : ℚ × ℚ :=
  (round6 ((cs.map Prod.fst).sum / (cs.length : ℚ)),
   round6 ((cs.map Prod.snd).sum / (cs.length : ℚ)))

/-- `parse_kml`: walk the placemark records in document order and
produce the `(shapes, points, routes)` triple.  A polygon record with
an empty parsed coordinate list is skipped (`if coords:`); a point
record needs at least two comma-separated parts; a line-string record
with a coordinates block always contributes a route (there is no
emptiness guard in that branch). -/
def parse_kml : List Placemark → Except Unit (List Shape × List GpsPoint × List Route)
  | [] => .ok ([], [], [])
  | pm :: rest =>
    match pm.geom with
    | .polygon none => parse_kml rest
    | .polygon (some b) => do
        let cs ← parsePairs b
        let (ss, ps, rs) ← parse_kml rest
        if cs.isEmpty then
          .ok (ss, ps, rs)
        else
          .ok ({ name := pmName pm.name, coords := cs, center := shapeCenter cs } :: ss, ps, rs)
    | .point none => parse_kml rest
    | .point (some parts) =>
        if h : 2 ≤ parts.length then do
          let lat ← parseNum (parts.get ⟨1, by omega⟩)
          let lng ← parseNum (parts.get ⟨0, by omega⟩)
          let (ss, ps, rs) ← parse_kml rest
          .ok (ss, { name := pmName pm.name, lat := lat, lng := lng } :: ps, rs)
        else parse_kml rest
    | .lineString none => parse_kml rest
    | .lineString (some b) => do
        let cs ← parsePairs b
        let (ss, ps, rs) ← parse_kml rest
        .ok (ss, ps, { name := pmName pm.name, coords := cs } :: rs)
    | .other => parse_kml rest

/-- The tolerance `0.000001` of `coords_changed`. -/
def tol : ℚ := 1 / 1000000

/-- Python `abs` on the modelled floats. -/
def absQ (q : ℚ) : ℚ := if q < 0 then -q else q

/-- `coords_changed(old_coords, new_coords)`: `True` on a length
mismatch, otherwise `True` iff some aligned pair deviates by more than
`0.000001` in latitude or longitude. -/
def coords_changed (old nw : List (ℚ × ℚ)) : Bool :=
  if old.length ≠ nw.length then true
  else (old.zip nw).any fun ab =>
    decide (tol < absQ (ab.1.1 - ab.2.1)) || decide (tol < absQ (ab.1.2 - ab.2.2))

/-! ## Python dicts keyed by shape name -/

/-- A Python `dict` from shape name to shape, as an insertion-ordered
association list. -/
abbrev Dict := List (String × Shape)

/-- `d.keys()` in iteration order. -/
def keys (d : Dict) : List String := d.map Prod.fst

/-- `d[k] = v`: update the value in place when the key exists,
otherwise append the new binding. -/
def dictInsert (d : Dict) (k : String) (v : Shape) : Dict :=
  if (keys d).contains k then
    d.map fun p => if p.1 = k then (k, v) else p
  else d ++ [(k, v)]

/-- `{s['name']: s for s in l}`. -/
def buildDict (l : List Shape) : Dict :=
  l.foldl (fun d s => dictInsert d s.name s) []

/-! ## Python `sorted` on strings (code-point lexicographic order) -/

/-- Lexicographic strict order on code-point sequences. -/
def codeLt : List Char → List Char → Bool
  | [], [] => false
  | [], _ :: _ => true
  | _ :: _, [] => false
  | a :: as, b :: bs =>
    if a.toNat < b.toNat then true
    else if b.toNat < a.toNat then false
    else codeLt as bs

/-- Python `<` on strings. -/
def strLtB (a b : String) : Bool := codeLt a.data b.data

/-- Python `<=` on strings. -/
def strLeB (a b : String) : Bool := strLtB a b || a == b

/-- Python `sorted` on a list of strings. -/
def sortStr (l : List String) : List String :=
  List.insertionSort (fun a b => strLeB a b = true) l

/-! ## The diff -/

/-- `added = sorted(set(new_dict.keys()) - set(cur_dict.keys()))`. -/
def addedNames (cur nw : Dict) : List String :=
  sortStr ((keys nw).filter fun n => !((keys cur).contains n))

/-- `removed = sorted(set(cur_dict.keys()) - set(new_dict.keys()))`. -/
def removedNames (cur nw : Dict) : List String :=
  sortStr ((keys cur).filter fun n => !((keys nw).contains n))

/-- `common = sorted(set(cur_dict.keys()) & set(new_dict.keys()))`. -/
def commonNames (cur nw : Dict) : List String :=
  sortStr ((keys cur).filter fun n => (keys nw).contains n)

/-- `cur_dict[n]['coords']` / `new_dict[n]['coords']` (the lookup is
only performed on names common to both dicts, where it succeeds). -/
def coordsOf (d : Dict) (n : String) : List (ℚ × ℚ) :=
  match List.lookup n d with
  | some s => s.coords
  | none => []

/-- `modified = [n for n in common if coords_changed(…)]`. -/
def modifiedNames (cur nw : Dict) : List String :=
  (commonNames cur nw).filter fun n => coords_changed (coordsOf cur n) (coordsOf nw n)

/-- `unchanged = [n for n in common if n not in modified]`. -/
def unchangedNames (cur nw : Dict) : List String :=
  (commonNames cur nw).filter fun n => !((modifiedNames cur nw).contains n)

/-! ## The merge of `--apply` -/

/-- One step of `merged[name] = new_dict[name]` (the lookup succeeds
for every name the loop visits, since `added` and `modified` names are
keys of `new_dict`). -/
def mergeInsert (nw : Dict) (d : Dict) (n : String) : Dict :=
  match List.lookup n nw with
  | some v => dictInsert d n v
  | none => d

/-- `merged = dict(cur_dict); for name in added + modified: merged[name] = new_dict[name]`. -/
def mergedDict (cur nw : Dict) : Dict :=
  (addedNames cur nw ++ modifiedNames cur nw).foldl (mergeInsert nw) cur

/-- `list(merged.values())`. -/
def dictValues (d : Dict) : List Shape := d.map Prod.snd

/-! ## Airtable propagation -/

/-- One record of `records = [{"fields": {"Name": n, "Status": "New SFLA"}} for n in added]`. -/
structure AirtableRecord where
  name : String
  status : String
deriving DecidableEq

/-- The records created for the added names. -/
def airtableRecords (added : List String) : List AirtableRecord :=
  added.map fun n => { name := n, status := "New SFLA" }

/-- `records[i:i+10] for i in range(0, len(records), 10)`, via a fuel
argument that is always at least the list length. -/
def chunksAux {α : Type} : ℕ → List α → List (List α)
  | 0, _ => []
  | _, [] => []
  | fuel + 1, a :: as => ((a :: as).take 10) :: chunksAux fuel ((a :: as).drop 10)

/-- The batch decomposition of the record list (batch size 10). -/
def batches10 {α : Type} (l : List α) : List (List α) := chunksAux l.length l

/-- Sequential issue of the batches against a remote store in which
batch number `i` fails iff `fails i`: the returned list is the batches
actually sent (`api_post` is called on a failing batch too — the
exception it raises aborts the remaining iterations of the loop). -/
def runBatches {α : Type} : List α → (ℕ → Bool) → ℕ → List α
  | [], _, _ => []
  | b :: bs, fails, i => if fails i then [b] else b :: runBatches bs fails (i + 1)

/-! ## The `main` pipeline after loading -/

/-- The externally visible effects of one run of `main` (after the KML
and `shapes.js` have been loaded): the triple written to `shapes.js`
(in `SHAPES`, `ROUTES`, `GPS_POINTS` order), if any, and the Airtable
creation batches issued. -/
structure RunEffects where
  wrote : Option (List Shape × List Route × List GpsPoint)
  batches : List (List AirtableRecord)
deriving DecidableEq

/-- `main` from the point where both sides are loaded: build the two
name dicts, diff, stop early when nothing would change
(`if not added and not modified and not new_points and not new_routes`),
stop before mutating on a dry run (`if not apply`), otherwise write the
merged triple and create one Airtable record per added name in batches
of 10. -/
def runMain (curShapes : List Shape) (curRoutes : List Route) (curGps : List GpsPoint)
    (newShapes : List Shape) (newPoints : List GpsPoint) (newRoutes : List Route)
    (apply : Bool) : RunEffects :=
  let cur_dict := buildDict curShapes
  let new_dict := buildDict newShapes
  let added := addedNames cur_dict new_dict
  let modified := modifiedNames cur_dict new_dict
  if added.isEmpty && modified.isEmpty && newPoints.isEmpty && newRoutes.isEmpty then
    { wrote := none, batches := [] }
  else if !apply then
    { wrote := none, batches := [] }
  else
    let merged := mergedDict cur_dict new_dict
    let final_gps := if newPoints.isEmpty then curGps else newPoints
    let final_routes := if newRoutes.isEmpty then curRoutes else newRoutes
    { wrote := some (dictValues merged, final_routes, final_gps),
      batches := batches10 (airtableRecords added) }

/-! ## Basic lemmas about the embedding -/

theorem bind_ok {α β : Type} (a : α) (f : α → Except Unit β) :
    (Except.ok a >>= f) = f a := rfl

theorem bind_error {α β : Type} (f : α → Except Unit β) :
    ((Except.error () : Except Unit α) >>= f) = .error () := rfl

theorem absQ_eq_abs (q : ℚ) : absQ q = |q| := by
  unfold absQ
  rcases lt_or_le q 0 with h | h
  · rw [if_pos h, abs_of_neg h]
  · rw [if_neg (not_lt.mpr h), abs_of_nonneg h]

theorem coords_changed_false_iff (a b : List (ℚ × ℚ)) :
    coords_changed a b = false ↔
      a.length = b.length ∧
        ∀ p ∈ a.zip b, |p.1.1 - p.2.1| ≤ tol ∧ |p.1.2 - p.2.2| ≤ tol := by
  unfold coords_changed
  by_cases h : a.length = b.length
  · simp only [h, ne_eq, not_true_eq_false, if_false, List.any_eq_false, Bool.or_eq_true,
      decide_eq_true_eq, not_or, not_lt, absQ_eq_abs, true_and]
  · simp [h]

theorem zip_self_eq (c : List (ℚ × ℚ)) : ∀ p ∈ c.zip c, p.1 = p.2 := by
  induction c with
  | nil => simp
  | cons x t ih =>
      intro p hp
      rw [List.zip_cons_cons] at hp
      rcases List.mem_cons.mp hp with h | h
      · rw [h]
      · exact ih p h

theorem tol_nonneg : (0 : ℚ) ≤ tol := by norm_num [tol]

theorem coords_changed_self (c : List (ℚ × ℚ)) : coords_changed c c = false := by
  rw [coords_changed_false_iff]
  refine ⟨rfl, fun p hp => ?_⟩
  rw [zip_self_eq c p hp]
  simpa using tol_nonneg

/-! ### `sortStr` -/

theorem sortStr_perm (l : List String) : (sortStr l).Perm l :=
  List.perm_insertionSort _ l

theorem mem_sortStr {l : List String} {n : String} : n ∈ sortStr l ↔ n ∈ l :=
  (sortStr_perm l).mem_iff

theorem nodup_sortStr {l : List String} (h : l.Nodup) : (sortStr l).Nodup :=
  ((sortStr_perm l).nodup_iff).mpr h

theorem sortStr_eq_nil_iff {l : List String} : sortStr l = [] ↔ l = [] := by
  constructor
  · intro h
    have := (sortStr_perm l).length_eq
    rw [h] at this
    exact List.length_eq_zero.mp this.symm
  · intro h
    rw [h]
    rfl

/-! ### Dict lemmas -/

theorem keys_dictInsert_of_mem {d : Dict} {k : String} (v : Shape) (h : k ∈ keys d) :
    keys (dictInsert d k v) = keys d := by
  unfold dictInsert
  rw [if_pos (List.elem_iff.mpr h)]
  unfold keys
  rw [List.map_map]
  apply List.map_congr_left
  intro p _
  by_cases hp : p.1 = k
  · simp [hp]
  · simp [hp]

theorem keys_dictInsert_of_not_mem {d : Dict} {k : String} (v : Shape) (h : k ∉ keys d) :
    keys (dictInsert d k v) = keys d ++ [k] := by
  unfold dictInsert
  rw [if_neg]
  · unfold keys
    rw [List.map_append]
    rfl
  · intro hc
    exact h (List.elem_iff.mp hc)

theorem nodup_keys_dictInsert {d : Dict} {k : String} (v : Shape)
    (h : (keys d).Nodup) : (keys (dictInsert d k v)).Nodup := by
  by_cases hk : k ∈ keys d
  · rw [keys_dictInsert_of_mem v hk]
    exact h
  · rw [keys_dictInsert_of_not_mem v hk]
    rw [List.nodup_append]
    exact ⟨h, List.nodup_singleton k, by simpa using hk⟩


@[simp] theorem keys_nil : keys [] = [] := rfl

@[simp] theorem keys_cons {p : String × Shape} {t : Dict} :
    keys (p :: t) = p.1 :: keys t := rfl

theorem keys_append (a b : Dict) : keys (a ++ b) = keys a ++ keys b :=
  List.map_append _ a b

theorem lookup_cons {p : String × Shape} {t : Dict} {n : String} :
    List.lookup n (p :: t) = if n == p.1 then some p.2 else List.lookup n t := by
  cases hb : n == p.1 <;> simp [List.lookup, hb]

theorem mem_of_lookup_eq_some {d : Dict} {n : String} {v : Shape}
    (h : List.lookup n d = some v) : (n, v) ∈ d := by
  induction d with
  | nil => simp [List.lookup] at h
  | cons p t ih =>
      rw [lookup_cons] at h
      cases hb : n == p.1 with
      | true =>
          rw [if_pos hb] at h
          have h1 : n = p.1 := by simpa using hb
          have h2 : p.2 = v := by simpa using h
          apply List.mem_cons.mpr
          left
          rw [Prod.ext_iff]
          exact ⟨h1, h2.symm⟩
      | false =>
          rw [if_neg (by simp [hb])] at h
          exact List.mem_cons_of_mem _ (ih h)

theorem lookup_isSome_iff {d : Dict} {n : String} :
    (List.lookup n d).isSome ↔ n ∈ keys d := by
  induction d with
  | nil => simp [List.lookup]
  | cons p t ih =>
      rw [lookup_cons]
      cases hb : n == p.1 with
      | true =>
          have h1 : n = p.1 := by simpa using hb
          simp [hb, h1]
      | false =>
          have h1 : n ≠ p.1 := by simpa using hb
          simp [hb, h1, ih]

theorem lookup_eq_none_of_not_mem {d : Dict} {n : String} (h : n ∉ keys d) :
    List.lookup n d = none := by
  cases hl : List.lookup n d with
  | none => rfl
  | some v =>
      exfalso
      apply h
      rw [← lookup_isSome_iff, hl]
      rfl

theorem lookup_append_of_not_mem {d e : Dict} {n : String} (h : n ∉ keys d) :
    List.lookup n (d ++ e) = List.lookup n e := by
  induction d with
  | nil => rfl
  | cons p t ih =>
      rw [List.cons_append, lookup_cons]
      simp only [keys_cons, List.mem_cons, not_or] at h
      rw [if_neg (by simpa using h.1)]
      exact ih h.2

theorem lookup_map_update {d : Dict} {k : String} (v : Shape) (h : k ∈ keys d) :
    List.lookup k (d.map fun p => if p.1 = k then (k, v) else p) = some v := by
  induction d with
  | nil => simp at h
  | cons p t ih =>
      rw [List.map_cons]
      by_cases hp : p.1 = k
      · rw [if_pos hp, lookup_cons]
        simp
      · rw [if_neg hp, lookup_cons]
        rw [if_neg (by simp; exact fun he => hp he.symm)]
        apply ih
        simp only [keys_cons, List.mem_cons] at h
        rcases h with h | h
        · exact absurd h.symm hp
        · exact h

theorem lookup_dictInsert_self {d : Dict} (k : String) (v : Shape) :
    List.lookup k (dictInsert d k v) = some v := by
  unfold dictInsert
  by_cases hk : k ∈ keys d
  · rw [if_pos (List.elem_iff.mpr hk)]
    exact lookup_map_update v hk
  · rw [if_neg (fun hc => hk (List.elem_iff.mp hc))]
    rw [lookup_append_of_not_mem hk]
    rw [lookup_cons]
    simp

theorem lookup_map_update_ne {d : Dict} {k n : String} (v : Shape) (h : n ≠ k) :
    List.lookup n (d.map fun p => if p.1 = k then (k, v) else p) = List.lookup n d := by
  induction d with
  | nil => rfl
  | cons p t ih =>
      rw [List.map_cons, lookup_cons, lookup_cons]
      by_cases hp : p.1 = k
      · rw [if_pos hp]
        have h2 : ¬ (n == p.1) = true := by
          simp only [beq_iff_eq]
          rw [hp]
          exact h
        rw [if_neg (by simpa using h), if_neg h2]
        exact ih
      · rw [if_neg hp]
        by_cases hn : (n == p.1) = true
        · rw [if_pos hn, if_pos hn]
        · rw [if_neg hn, if_neg hn]
          exact ih

theorem lookup_append_single_ne {d : Dict} {k n : String} (v : Shape) (h : n ≠ k) :
    List.lookup n (d ++ [(k, v)]) = List.lookup n d := by
  induction d with
  | nil =>
      rw [List.nil_append, lookup_cons]
      rw [if_neg (by simpa using h)]
  | cons p t ih =>
      rw [List.cons_append, lookup_cons, lookup_cons]
      by_cases hn : (n == p.1) = true
      · rw [if_pos hn, if_pos hn]
      · rw [if_neg hn, if_neg hn]
        exact ih

theorem lookup_dictInsert_ne {d : Dict} {k n : String} (v : Shape) (h : n ≠ k) :
    List.lookup n (dictInsert d k v) = List.lookup n d := by
  unfold dictInsert
  by_cases hk : k ∈ keys d
  · rw [if_pos (List.elem_iff.mpr hk)]
    exact lookup_map_update_ne v h
  · rw [if_neg (fun hc => hk (List.elem_iff.mp hc))]
    exact lookup_append_single_ne v h


/-- Invariant of every dict `main` builds: keys are unique and each
entry's value carries its key as its `name`. -/
def goodDict (d : Dict) : Prop :=
  (keys d).Nodup ∧ ∀ p ∈ d, p.2.name = p.1

theorem goodDict_dictInsert {d : Dict} {k : String} {v : Shape}
    (hd : goodDict d) (hv : v.name = k) : goodDict (dictInsert d k v) := by
  obtain ⟨h1, h2⟩ := hd
  constructor
  · exact nodup_keys_dictInsert v h1
  · intro p hp
    unfold dictInsert at hp
    by_cases hk : k ∈ keys d
    · rw [if_pos (List.elem_iff.mpr hk)] at hp
      obtain ⟨q, hq, hqe⟩ := List.mem_map.mp hp
      by_cases hq1 : q.1 = k
      · rw [if_pos hq1] at hqe
        rw [← hqe]
        exact hv
      · rw [if_neg hq1] at hqe
        rw [← hqe]
        exact h2 q hq
    · rw [if_neg (fun hc => hk (List.elem_iff.mp hc))] at hp
      rcases List.mem_append.mp hp with hp | hp
      · exact h2 p hp
      · have : p = (k, v) := by simpa using hp
        rw [this]
        exact hv

theorem goodDict_buildDict (l : List Shape) : goodDict (buildDict l) := by
  unfold buildDict
  have base : goodDict ([] : Dict) := ⟨List.nodup_nil, by simp⟩
  generalize hd : ([] : Dict) = d at base
  clear hd
  induction l generalizing d with
  | nil => exact base
  | cons s t ih =>
      rw [List.foldl_cons]
      exact ih _ (goodDict_dictInsert base rfl)

theorem lookup_goodDict_name {d : Dict} {n : String} {v : Shape}
    (hd : goodDict d) (h : List.lookup n d = some v) : v.name = n := by
  have hm := mem_of_lookup_eq_some h
  exact hd.2 (n, v) hm

theorem dictValues_names_nodup {d : Dict} (hd : goodDict d) :
    ((dictValues d).map Shape.name).Nodup := by
  have : (dictValues d).map Shape.name = keys d := by
    unfold dictValues keys
    rw [List.map_map]
    apply List.map_congr_left
    intro p hp
    exact hd.2 p hp
  rw [this]
  exact hd.1

/-! ### Diff membership lemmas -/

theorem mem_addedNames {cur nw : Dict} {n : String} :
    n ∈ addedNames cur nw ↔ n ∈ keys nw ∧ n ∉ keys cur := by
  unfold addedNames
  rw [mem_sortStr, List.mem_filter]
  simp [List.elem_iff]

theorem mem_removedNames {cur nw : Dict} {n : String} :
    n ∈ removedNames cur nw ↔ n ∈ keys cur ∧ n ∉ keys nw := by
  unfold removedNames
  rw [mem_sortStr, List.mem_filter]
  simp [List.elem_iff]

theorem mem_commonNames {cur nw : Dict} {n : String} :
    n ∈ commonNames cur nw ↔ n ∈ keys cur ∧ n ∈ keys nw := by
  unfold commonNames
  rw [mem_sortStr, List.mem_filter]
  simp [List.elem_iff]

theorem mem_modifiedNames {cur nw : Dict} {n : String} :
    n ∈ modifiedNames cur nw ↔
      n ∈ commonNames cur nw ∧ coords_changed (coordsOf cur n) (coordsOf nw n) = true := by
  unfold modifiedNames
  rw [List.mem_filter]

theorem mem_unchangedNames {cur nw : Dict} {n : String} :
    n ∈ unchangedNames cur nw ↔
      n ∈ commonNames cur nw ∧ n ∉ modifiedNames cur nw := by
  unfold unchangedNames
  rw [List.mem_filter]
  simp [List.elem_iff]

theorem unchanged_not_changed {cur nw : Dict} {n : String}
    (hc : n ∈ commonNames cur nw) (hm : n ∉ modifiedNames cur nw) :
    coords_changed (coordsOf cur n) (coordsOf nw n) = false := by
  cases hcc : coords_changed (coordsOf cur n) (coordsOf nw n) with
  | false => rfl
  | true => exact absurd (mem_modifiedNames.mpr ⟨hc, hcc⟩) hm

theorem nodup_addedNames {cur nw : Dict} (h : (keys nw).Nodup) :
    (addedNames cur nw).Nodup :=
  nodup_sortStr (h.filter _)


/-! ### Merge lemmas -/

theorem lookup_mergeInsert_ne {nw d : Dict} {m n : String} (h : n ≠ m) :
    List.lookup n (mergeInsert nw d m) = List.lookup n d := by
  unfold mergeInsert
  cases List.lookup m nw with
  | none => rfl
  | some v => exact lookup_dictInsert_ne v h

theorem lookup_foldl_not_mem {nw : Dict} {L : List String} {n : String}
    (h : n ∉ L) (d : Dict) :
    List.lookup n (L.foldl (mergeInsert nw) d) = List.lookup n d := by
  induction L generalizing d with
  | nil => rfl
  | cons m t ih =>
      rw [List.foldl_cons]
      have hnm : n ≠ m := fun he => h (he ▸ List.mem_cons_self m t)
      rw [ih (fun hm => h (List.mem_cons_of_mem _ hm)) _]
      exact lookup_mergeInsert_ne hnm

theorem lookup_foldl_mem {nw : Dict} {L : List String} {n : String}
    (hL : n ∈ L) {v : Shape} (hv : List.lookup n nw = some v) (d : Dict) :
    List.lookup n (L.foldl (mergeInsert nw) d) = some v := by
  induction L generalizing d with
  | nil => simp at hL
  | cons m t ih =>
      rw [List.foldl_cons]
      by_cases ht : n ∈ t
      · exact ih ht _
      · have hnm : n = m := by
          rcases List.mem_cons.mp hL with h | h
          · exact h
          · exact absurd h ht
        rw [lookup_foldl_not_mem ht, ← hnm]
        unfold mergeInsert
        rw [hv]
        exact lookup_dictInsert_self n v

theorem goodDict_mergeInsert {nw d : Dict} {m : String}
    (hd : goodDict d) (hnw : goodDict nw) : goodDict (mergeInsert nw d m) := by
  unfold mergeInsert
  cases hm : List.lookup m nw with
  | none => exact hd
  | some v => exact goodDict_dictInsert hd (lookup_goodDict_name hnw hm)

theorem goodDict_foldl {nw : Dict} {L : List String} {d : Dict}
    (hd : goodDict d) (hnw : goodDict nw) :
    goodDict (L.foldl (mergeInsert nw) d) := by
  induction L generalizing d with
  | nil => exact hd
  | cons m t ih =>
      rw [List.foldl_cons]
      exact ih (goodDict_mergeInsert hd hnw)

theorem exists_lookup_of_mem_keys {d : Dict} {n : String} (h : n ∈ keys d) :
    ∃ v, List.lookup n d = some v := by
  have hs := lookup_isSome_iff.mpr h
  cases hl : List.lookup n d with
  | none => rw [hl] at hs; simp at hs
  | some v => exact ⟨v, rfl⟩

theorem mem_merge_list_sub_keys {cur nw : Dict} {n : String}
    (h : n ∈ addedNames cur nw ++ modifiedNames cur nw) : n ∈ keys nw := by
  rcases List.mem_append.mp h with h | h
  · exact (mem_addedNames.mp h).1
  · exact (mem_commonNames.mp (mem_modifiedNames.mp h).1).2

theorem mergedDict_lookup_mem {cur nw : Dict} {n : String}
    (h : n ∈ addedNames cur nw ∨ n ∈ modifiedNames cur nw) :
    List.lookup n (mergedDict cur nw) = List.lookup n nw := by
  have hap : n ∈ addedNames cur nw ++ modifiedNames cur nw := List.mem_append.mpr h
  obtain ⟨v, hv⟩ := exists_lookup_of_mem_keys (mem_merge_list_sub_keys hap)
  unfold mergedDict
  rw [lookup_foldl_mem hap hv, hv]

theorem mergedDict_lookup_not_mem {cur nw : Dict} {n : String}
    (h1 : n ∉ addedNames cur nw) (h2 : n ∉ modifiedNames cur nw) :
    List.lookup n (mergedDict cur nw) = List.lookup n cur := by
  unfold mergedDict
  apply lookup_foldl_not_mem
  intro hm
  rcases List.mem_append.mp hm with h | h
  · exact h1 h
  · exact h2 h

theorem mergedDict_isSome_of_cur {cur nw : Dict} {n : String}
    (h : (List.lookup n cur).isSome) :
    (List.lookup n (mergedDict cur nw)).isSome := by
  by_cases hm : n ∈ addedNames cur nw ∨ n ∈ modifiedNames cur nw
  · rw [mergedDict_lookup_mem hm]
    exact lookup_isSome_iff.mpr (mem_merge_list_sub_keys (List.mem_append.mpr hm))
  · push_neg at hm
    rw [mergedDict_lookup_not_mem hm.1 hm.2]
    exact h

theorem goodDict_mergedDict {cur nw : Dict} (hc : goodDict cur) (hn : goodDict nw) :
    goodDict (mergedDict cur nw) :=
  goodDict_foldl hc hn


/-! ### Parser lemmas -/

theorem bind_eq_ok_iff {α β : Type} {e : Except Unit α} {f : α → Except Unit β}
    {b : β} : (e >>= f) = .ok b ↔ ∃ a, e = .ok a ∧ f a = .ok b := by
  cases e with
  | error u =>
      cases u
      simp [bind_error]
  | ok a => simp [bind_ok]

theorem parsePairs_short {b : List (List Token)} (h : ∀ t ∈ b, t.length < 2) :
    parsePairs b = .ok [] := by
  induction b with
  | nil => rfl
  | cons c cs ih =>
      have hc : ¬ 2 ≤ c.length := by
        have := h c (List.mem_cons_self c cs)
        omega
      simp only [parsePairs, dif_neg hc]
      exact ih fun t ht => h t (List.mem_cons_of_mem _ ht)

theorem parsePairs_nil_iff {b : List (List Token)} {cs : List (ℚ × ℚ)}
    (h : parsePairs b = .ok cs) : cs = [] ↔ ∀ t ∈ b, t.length < 2 := by
  induction b generalizing cs with
  | nil =>
      simp only [parsePairs] at h
      have : cs = [] := by
        cases h
        rfl
      simp [this]
  | cons c t ih =>
      by_cases hc : 2 ≤ c.length
      · simp only [parsePairs, dif_pos hc] at h
        rw [bind_eq_ok_iff] at h
        obtain ⟨lat, hlat, h⟩ := h
        rw [bind_eq_ok_iff] at h
        obtain ⟨lng, hlng, h⟩ := h
        rw [bind_eq_ok_iff] at h
        obtain ⟨rest, hrest, h⟩ := h
        have hcs : cs = (lat, lng) :: rest := by
          cases h
          rfl
        constructor
        · intro he
          rw [hcs] at he
          exact absurd he (List.cons_ne_nil _ _)
        · intro hall
          exact absurd (hall c (List.mem_cons_self c t)) (by omega)
      · simp only [parsePairs, dif_neg hc] at h
        rw [ih h]
        constructor
        · intro hall s hs
          rcases List.mem_cons.mp hs with he | hm
          · rw [he]
            omega
          · exact hall s hm
        · intro hall s hs
          exact hall s (List.mem_cons_of_mem _ hs)

/-! ### Batch lemmas -/

theorem chunksAux_flatten {α : Type} :
    ∀ (fuel : ℕ) (l : List α), l.length ≤ fuel → (chunksAux fuel l).flatten = l := by
  intro fuel
  induction fuel with
  | zero =>
      intro l h
      have : l = [] := List.length_eq_zero.mp (Nat.le_zero.mp h)
      rw [this]
      rfl
  | succ f ih =>
      intro l h
      cases l with
      | nil => rfl
      | cons a as =>
          simp only [chunksAux, List.flatten_cons]
          rw [ih _ (by simp only [List.length_drop, List.length_cons] at h ⊢; omega)]
          exact List.take_append_drop 10 (a :: as)

theorem mem_chunksAux {α : Type} {fuel : ℕ} {l : List α} {b : List α}
    (hb : b ∈ chunksAux fuel l) : b.length ≤ 10 ∧ b ≠ [] := by
  induction fuel generalizing l with
  | zero => simp [chunksAux] at hb
  | succ f ih =>
      cases l with
      | nil => simp [chunksAux] at hb
      | cons a as =>
          simp only [chunksAux] at hb
          rcases List.mem_cons.mp hb with h | h
          · constructor
            · rw [h, List.length_take]
              omega
            · rw [h]
              simp
          · exact ih h

theorem batches10_flatten {α : Type} (l : List α) : (batches10 l).flatten = l :=
  chunksAux_flatten l.length l le_rfl

theorem mem_batches10 {α : Type} {l : List α} {b : List α} (hb : b ∈ batches10 l) :
    b.length ≤ 10 ∧ b ≠ [] :=
  mem_chunksAux hb

theorem runBatches_take {α : Type} (bs : List α) (fails : ℕ → Bool) :
    ∀ (i j : ℕ), fails (i + j) = true → (∀ k, k < j → fails (i + k) = false) →
      runBatches bs fails i = bs.take (j + 1) := by
  induction bs with
  | nil =>
      intro i j _ _
      simp [runBatches]
  | cons b t ih =>
      intro i j hj hlt
      cases j with
      | zero =>
          have h0 : fails i = true := by simpa using hj
          simp only [runBatches, if_pos h0]
          rfl
      | succ m =>
          have h0 : fails i = false := by simpa using hlt 0 (Nat.succ_pos m)
          simp only [runBatches, h0, Bool.false_eq_true, if_false, List.take_succ_cons]
          congr 1
          apply ih (i + 1) m
          · have he : i + 1 + m = i + (m + 1) := by omega
            rw [he]
            exact hj
          · intro k hk
            have he : i + 1 + k = i + (k + 1) := by omega
            rw [he]
            exact hlt (k + 1) (by omega)

theorem runBatches_all {α : Type} (bs : List α) (fails : ℕ → Bool)
    (h : ∀ k, fails k = false) : ∀ i, runBatches bs fails i = bs := by
  induction bs with
  | nil => intro i; rfl
  | cons b t ih =>
      intro i
      simp only [runBatches, h i, Bool.false_eq_true, if_false]
      rw [ih (i + 1)]

theorem countP_batches_one {α : Type} {bs : List (List α)} {p : α → Bool}
    (h : bs.flatten.countP p = 1) :
    bs.countP (fun b => b.any p) = 1 := by
  induction bs with
  | nil => simp at h
  | cons b t ih =>
      rw [List.flatten_cons, List.countP_append] at h
      rw [List.countP_cons]
      by_cases hb : b.countP p = 0
      · have hany : b.any p = false := by
          rw [List.any_eq_false]
          intro x hx
          have := List.countP_eq_zero.mp hb x hx
          simpa using this
        rw [hb] at h
        simp only [Nat.zero_add] at h
        rw [ih h, hany]
        rfl
      · have hb1 : 0 < b.countP p := Nat.pos_of_ne_zero hb
        have hflat : t.flatten.countP p = 0 := by omega
        have hany : b.any p = true := by
          rw [List.any_eq_true]
          obtain ⟨x, hx, hpx⟩ := List.countP_pos_iff.mp hb1
          exact ⟨x, hx, hpx⟩
        have hrest : t.countP (fun c => c.any p) = 0 := by
          rw [List.countP_eq_zero]
          intro c hc
          simp only [Bool.not_eq_true, List.any_eq_false]
          intro x hx
          have hcz : c.countP p = 0 := by
            rw [List.countP_flatten] at hflat
            have := (List.sum_eq_zero_iff.mp hflat) (c.countP p)
              (List.mem_map.mpr ⟨c, hc, rfl⟩)
            exact this
          have := List.countP_eq_zero.mp hcz x hx
          simpa using this
        rw [hrest, hany]
        simp


/-! ## Concrete shapes used to instantiate the theorems -/

/-- Example shape named `A` (the spec scenario shape). -/
def exA : Shape := { name := "A", coords := [(1, 1), (2, 2), (1, 1)], center := (1, 1) }

/-- Example shape named `B`. -/
def exB : Shape := { name := "B", coords := [(5, 5), (6, 6), (5, 5)], center := (5, 5) }

/-- Example shape named `C`. -/
def exC : Shape := { name := "C", coords := [(7, 7), (8, 8), (7, 7)], center := (7, 7) }

/-! ## The claims -/

/-- C1: for every pair of shape collections (as name-keyed dicts), the
four diff name-sets `added`, `removed`, `modified`, `unchanged` are
pairwise disjoint and their union is exactly the union of the current
and incoming name sets, so every such name lies in exactly one set. -/
theorem diff_partition (cur nw : Dict) :
    ((addedNames cur nw).Disjoint (removedNames cur nw) ∧
     (addedNames cur nw).Disjoint (modifiedNames cur nw) ∧
     (addedNames cur nw).Disjoint (unchangedNames cur nw) ∧
     (removedNames cur nw).Disjoint (modifiedNames cur nw) ∧
     (removedNames cur nw).Disjoint (unchangedNames cur nw) ∧
     (modifiedNames cur nw).Disjoint (unchangedNames cur nw)) ∧
    ∀ n, (n ∈ addedNames cur nw ∨ n ∈ removedNames cur nw ∨
          n ∈ modifiedNames cur nw ∨ n ∈ unchangedNames cur nw) ↔
         (n ∈ keys cur ∨ n ∈ keys nw) := by
  refine ⟨⟨?_, ?_, ?_, ?_, ?_, ?_⟩, ?_⟩
  · intro n h1 h2
    exact (mem_addedNames.mp h1).2 (mem_removedNames.mp h2).1
  · intro n h1 h2
    exact (mem_addedNames.mp h1).2 (mem_commonNames.mp (mem_modifiedNames.mp h2).1).1
  · intro n h1 h2
    exact (mem_addedNames.mp h1).2 (mem_commonNames.mp (mem_unchangedNames.mp h2).1).1
  · intro n h1 h2
    exact (mem_removedNames.mp h1).2 (mem_commonNames.mp (mem_modifiedNames.mp h2).1).2
  · intro n h1 h2
    exact (mem_removedNames.mp h1).2 (mem_commonNames.mp (mem_unchangedNames.mp h2).1).2
  · intro n h1 h2
    exact (mem_unchangedNames.mp h2).2 h1
  · intro n
    constructor
    · intro h
      rcases h with h | h | h | h
      · exact Or.inr (mem_addedNames.mp h).1
      · exact Or.inl (mem_removedNames.mp h).1
      · exact Or.inl (mem_commonNames.mp (mem_modifiedNames.mp h).1).1
      · exact Or.inl (mem_commonNames.mp (mem_unchangedNames.mp h).1).1
    · intro h
      by_cases hc : n ∈ keys cur
      · by_cases hn : n ∈ keys nw
        · have hcom : n ∈ commonNames cur nw := mem_commonNames.mpr ⟨hc, hn⟩
          by_cases hm : n ∈ modifiedNames cur nw
          · exact Or.inr (Or.inr (Or.inl hm))
          · exact Or.inr (Or.inr (Or.inr (mem_unchangedNames.mpr ⟨hcom, hm⟩)))
        · exact Or.inr (Or.inl (mem_removedNames.mpr ⟨hc, hn⟩))
      · rcases h with h | h
        · exact absurd h hc
        · exact Or.inl (mem_addedNames.mpr ⟨h, hc⟩)

/-- C1 witness: the union equation of `diff_partition`, instantiated at
the concrete collections `[exA]` and `[exB]` and the name `A`. -/
theorem diff_partition_witness :
    ("A" ∈ addedNames (buildDict [exA]) (buildDict [exB]) ∨
     "A" ∈ removedNames (buildDict [exA]) (buildDict [exB]) ∨
     "A" ∈ modifiedNames (buildDict [exA]) (buildDict [exB]) ∨
     "A" ∈ unchangedNames (buildDict [exA]) (buildDict [exB])) ↔
    ("A" ∈ keys (buildDict [exA]) ∨ "A" ∈ keys (buildDict [exB])) :=
  (diff_partition (buildDict [exA]) (buildDict [exB])).2 "A"

/-- C2: the coordinate-equality predicate of the diff (the negation of
`coords_changed`) holds iff the two sequences have the same length and
every aligned pair differs by at most `tol = 1e-6` in each axis; hence
a deviation of exactly `1e-6` counts as unchanged and any strictly
larger deviation or length mismatch counts as changed. -/
theorem coords_changed_spec (a b : List (ℚ × ℚ)) :
    coords_changed a b = false ↔
      a.length = b.length ∧
        ∀ p ∈ a.zip b, |p.1.1 - p.2.1| ≤ tol ∧ |p.1.2 - p.2.2| ≤ tol :=
  coords_changed_false_iff a b

/-- C2 witness: at the tolerance boundary, a pair differing by exactly
`1e-6` is unchanged and a pair differing by `1.1e-6` is changed. -/
theorem coords_changed_spec_witness :
    coords_changed [((0 : ℚ), 0)] [(1 / 1000000, 0)] = false ∧
    coords_changed [((0 : ℚ), 0)] [(11 / 10000000, 0)] = true := by
  constructor
  · refine (coords_changed_spec _ _).mpr ⟨rfl, ?_⟩
    intro p hp
    have hpe : p = (((0 : ℚ), (0 : ℚ)), ((1 / 1000000 : ℚ), (0 : ℚ))) := by
      simpa using hp
    rw [hpe]
    constructor
    · simp only []
      rw [zero_sub, abs_neg, abs_of_nonneg (by norm_num)]
      norm_num [tol]
    · simp only []
      norm_num [tol]
  · cases hcc : coords_changed [((0 : ℚ), 0)] [(11 / 10000000, 0)] with
    | true => rfl
    | false =>
        exfalso
        obtain ⟨hl, hp⟩ := (coords_changed_spec _ _).mp hcc
        have := hp (((0 : ℚ), (0 : ℚ)), ((11 / 10000000 : ℚ), (0 : ℚ))) (by simp)
        obtain ⟨h1, h2⟩ := this
        rw [zero_sub, abs_neg, abs_of_nonneg (by norm_num)] at h1
        rw [tol] at h1
        norm_num at h1

/-- C3: in the committed merge, every name in `added` or `modified`
maps to the incoming shape, every other name (including all `removed`
names) maps verbatim to the current shape, and every name present in
the current collection is still present in the merged collection. -/
theorem merged_replaces_or_keeps (curS newS : List Shape) (n : String) :
    ((n ∈ addedNames (buildDict curS) (buildDict newS) ∨
      n ∈ modifiedNames (buildDict curS) (buildDict newS)) →
      List.lookup n (mergedDict (buildDict curS) (buildDict newS)) =
        List.lookup n (buildDict newS)) ∧
    (n ∉ addedNames (buildDict curS) (buildDict newS) →
      n ∉ modifiedNames (buildDict curS) (buildDict newS) →
      List.lookup n (mergedDict (buildDict curS) (buildDict newS)) =
        List.lookup n (buildDict curS)) ∧
    (n ∈ removedNames (buildDict curS) (buildDict newS) →
      List.lookup n (mergedDict (buildDict curS) (buildDict newS)) =
        List.lookup n (buildDict curS)) ∧
    ((List.lookup n (buildDict curS)).isSome →
      (List.lookup n (mergedDict (buildDict curS) (buildDict newS))).isSome) := by
  refine ⟨mergedDict_lookup_mem, mergedDict_lookup_not_mem, ?_, mergedDict_isSome_of_cur⟩
  intro hr
  have hnw : "x" = "x" := rfl
  obtain ⟨hc, hn⟩ := mem_removedNames.mp hr
  apply mergedDict_lookup_not_mem
  · intro ha
    exact hn (mem_addedNames.mp ha).1
  · intro hm
    exact hn (mem_commonNames.mp (mem_modifiedNames.mp hm).1).2

/-- C3 witness: with current `[exA]` and incoming `[exB]`, the added
name `B` is looked up from the incoming collection in the merge. -/
theorem merged_replaces_or_keeps_witness :
    List.lookup "B" (mergedDict (buildDict [exA]) (buildDict [exB])) =
      List.lookup "B" (buildDict [exB]) :=
  (merged_replaces_or_keeps [exA] [exB] "B").1 (Or.inl (by decide))

/-- C4: when the diff has empty `added` and `modified` and the incoming
point and route collections are empty, the run stops before the apply
path even with commit requested: nothing is written and no Airtable
batch is issued. -/
theorem removal_only_noop (curS : List Shape) (rts : List Route)
    (gps : List GpsPoint) (newS : List Shape) (npts : List GpsPoint)
    (nrts : List Route)
    (hadd : addedNames (buildDict curS) (buildDict newS) = [])
    (hmod : modifiedNames (buildDict curS) (buildDict newS) = [])
    (hpts : npts = []) (hrts : nrts = []) :
    runMain curS rts gps newS npts nrts true = { wrote := none, batches := [] } := by
  subst hpts
  subst hrts
  simp [runMain, hadd, hmod]

/-- C4 witness: a removal-only run (current `[exC]`, empty incoming)
with commit requested writes nothing and issues no batch. -/
theorem removal_only_noop_witness :
    runMain [exC] [] [] [] [] [] true = { wrote := none, batches := [] } :=
  removal_only_noop [exC] [] [] [] [] [] (by decide) (by decide) rfl rfl

/-- C5: a dry run (commit = false) never writes the inventory and never
issues an Airtable creation batch, for every input. -/
theorem dry_run_no_mutation (curS : List Shape) (rts : List Route)
    (gps : List GpsPoint) (newS : List Shape) (npts : List GpsPoint)
    (nrts : List Route) :
    runMain curS rts gps newS npts nrts false = { wrote := none, batches := [] } := by
  unfold runMain
  split
  · simp only [ite_self]
  · simp_all


/-- C6 counterexample: a Polygon record with the coordinate token
`lon,lat` = `1,<non-numeric>` (two components, non-numeric latitude)
aborts the whole parse — the following well-formed Point record is not
returned — although that same Point record parses fine on its own.
This refutes the claim that a malformed record is skipped without
aborting the parse. -/
theorem malformed_counterexample :
    parse_kml [{ name := none, geom := .polygon (some [[some 1, none]]) },
               { name := none, geom := .point (some [some 1, some 2]) }] =
      .error () ∧
    parse_kml [{ name := none, geom := .point (some [some 1, some 2]) }] =
      .ok ([], [{ name := "unnamed", lat := 2, lng := 1 }], []) :=
  ⟨rfl, rfl⟩

/-- C6 (amended): a Polygon record whose coordinate block is missing or
contains only tokens with fewer than two components, and a Point record
whose block is missing or has fewer than two comma-separated parts, are
skipped entirely and do not abort the parse; only a token with at least
two components and a non-numeric latitude or longitude aborts it. -/
theorem malformed_skip_no_abort (nm nm2 : Option String) (b : List (List Token))
    (pb : List Token) (rest : List Placemark)
    (hb : ∀ t ∈ b, t.length < 2) (hpb : pb.length < 2) :
    parse_kml ({ name := nm, geom := .polygon (some b) } :: rest) = parse_kml rest ∧
    parse_kml ({ name := nm2, geom := .point (some pb) } :: rest) = parse_kml rest ∧
    parse_kml ({ name := nm, geom := .polygon none } :: rest) = parse_kml rest ∧
    parse_kml ({ name := nm2, geom := .point none } :: rest) = parse_kml rest := by
  refine ⟨?_, ?_, rfl, rfl⟩
  · simp only [parse_kml]
    rw [parsePairs_short hb, bind_ok]
    cases hr : parse_kml rest with
    | error u =>
        cases u
        rw [bind_error]
    | ok t =>
        obtain ⟨ss, ps, rs⟩ := t
        rw [bind_ok]
        simp
  · simp only [parse_kml]
    rw [dif_neg (by omega)]

/-- C6 (amended) witness: a Polygon with the single 1-component token
and a Point with a single comma-part are skipped, and the following
Point record still parses. -/
theorem malformed_skip_no_abort_witness :
    (parse_kml ({ name := none, geom := .polygon (some [[some 1]]) } ::
        [{ name := none, geom := .point (some [some 1, some 2]) }]) =
      parse_kml [{ name := none, geom := .point (some [some 1, some 2]) }]) ∧
    (parse_kml ({ name := none, geom := .point (some [none]) } ::
        [{ name := none, geom := .point (some [some 1, some 2]) }]) =
      parse_kml [{ name := none, geom := .point (some [some 1, some 2]) }]) ∧
    (parse_kml ({ name := none, geom := .polygon none } ::
        [{ name := none, geom := .point (some [some 1, some 2]) }]) =
      parse_kml [{ name := none, geom := .point (some [some 1, some 2]) }]) ∧
    (parse_kml ({ name := none, geom := .point none } ::
        [{ name := none, geom := .point (some [some 1, some 2]) }]) =
      parse_kml [{ name := none, geom := .point (some [some 1, some 2]) }]) :=
  malformed_skip_no_abort none none [[some 1]] [none]
    [{ name := none, geom := .point (some [some 1, some 2]) }]
    (by decide) (by decide)

/-- C7 counterexample: a LineString record with an empty coordinates
block yields a Route whose `coords` list is empty — the parser does
emit a route with no points, refuting the claimed invariant. -/
theorem empty_route_counterexample :
    parse_kml [{ name := none, geom := .lineString (some []) }] =
      .ok ([], [], [{ name := "unnamed", coords := [] }]) :=
  rfl

/-- C7 (amended): every LineString record with a coordinates block
yields exactly one route whose `coords` are exactly the successfully
parsed `[lat, lng]` pairs of the block; the coords are empty iff every
token of the block has fewer than two components, and in that case the
route is still emitted (with an empty coords list) rather than skipped. -/
theorem route_coords_exact (nm : Option String) (b : List (List Token))
    (cs : List (ℚ × ℚ)) (rest : List Placemark)
    (ss : List Shape) (ps : List GpsPoint) (rs : List Route)
    (hb : parsePairs b = .ok cs) (hrest : parse_kml rest = .ok (ss, ps, rs)) :
    parse_kml ({ name := nm, geom := .lineString (some b) } :: rest) =
      .ok (ss, ps, { name := pmName nm, coords := cs } :: rs) ∧
    (cs = [] ↔ ∀ t ∈ b, t.length < 2) := by
  constructor
  · simp only [parse_kml]
    rw [hb, bind_ok, hrest, bind_ok]
  · exact parsePairs_nil_iff hb

/-- C7 (amended) witness: a LineString with the single token
`1,2[,...]` yields the one-point route `[(2, 1)]`, and a LineString
with an empty block yields a route with empty coords. -/
theorem route_coords_exact_witness :
    (parse_kml [{ name := none, geom := .lineString (some [[some 1, some 2]]) }] =
      .ok ([], [], [{ name := pmName none, coords := [((2 : ℚ), (1 : ℚ))] }]) ∧
      (([((2 : ℚ), (1 : ℚ))] : List (ℚ × ℚ)) = [] ↔
        ∀ t ∈ ([[some 1, some 2]] : List (List Token)), List.length t < 2)) ∧
    (parse_kml [{ name := none, geom := .lineString (some []) }] =
      .ok ([], [], [{ name := pmName none, coords := ([] : List (ℚ × ℚ)) }]) ∧
      (([] : List (ℚ × ℚ)) = [] ↔ ∀ t ∈ ([] : List (List Token)), List.length t < 2)) :=
  ⟨by exact route_coords_exact none [[some 1, some 2]] [((2 : ℚ), (1 : ℚ))] [] [] [] [] rfl rfl,
   by exact route_coords_exact none [] [] [] [] [] [] rfl rfl⟩

/-- C8: merging is idempotent — diffing the incoming collection against
the merged result of a first reconciliation yields empty `added` and
empty `modified`. -/
theorem second_run_no_changes (curS newS : List Shape) :
    addedNames (mergedDict (buildDict curS) (buildDict newS)) (buildDict newS) = [] ∧
    modifiedNames (mergedDict (buildDict curS) (buildDict newS)) (buildDict newS) = [] := by
  constructor
  · unfold addedNames
    rw [sortStr_eq_nil_iff, List.filter_eq_nil_iff]
    intro n hn
    simp only [Bool.not_eq_true', Bool.not_eq_false]
    apply List.elem_iff.mpr
    rw [← lookup_isSome_iff]
    by_cases hc : n ∈ keys (buildDict curS)
    · by_cases hm : n ∈ modifiedNames (buildDict curS) (buildDict newS)
      · rw [mergedDict_lookup_mem (Or.inr hm)]
        exact lookup_isSome_iff.mpr hn
      · have ha : n ∉ addedNames (buildDict curS) (buildDict newS) := fun h =>
          (mem_addedNames.mp h).2 hc
        rw [mergedDict_lookup_not_mem ha hm]
        exact lookup_isSome_iff.mpr hc
    · have ha : n ∈ addedNames (buildDict curS) (buildDict newS) :=
        mem_addedNames.mpr ⟨hn, hc⟩
      rw [mergedDict_lookup_mem (Or.inl ha)]
      exact lookup_isSome_iff.mpr hn
  · unfold modifiedNames
    rw [List.filter_eq_nil_iff]
    intro n hn
    obtain ⟨hmg, hnw⟩ := mem_commonNames.mp hn
    rw [Bool.not_eq_true]
    by_cases hL : n ∈ addedNames (buildDict curS) (buildDict newS) ∨
        n ∈ modifiedNames (buildDict curS) (buildDict newS)
    · have hlk := mergedDict_lookup_mem hL
      have hco : coordsOf (mergedDict (buildDict curS) (buildDict newS)) n =
          coordsOf (buildDict newS) n := by
        unfold coordsOf
        rw [hlk]
      rw [hco]
      exact coords_changed_self _
    · push_neg at hL
      have hlk := mergedDict_lookup_not_mem hL.1 hL.2
      have hcur : n ∈ keys (buildDict curS) := by
        have hs := lookup_isSome_iff.mpr hmg
        rw [hlk] at hs
        exact lookup_isSome_iff.mp hs
      have hcom : n ∈ commonNames (buildDict curS) (buildDict newS) :=
        mem_commonNames.mpr ⟨hcur, hnw⟩
      have hcc := unchanged_not_changed hcom hL.2
      have hco : coordsOf (mergedDict (buildDict curS) (buildDict newS)) n =
          coordsOf (buildDict curS) n := by
        unfold coordsOf
        rw [hlk]
      rw [hco]
      exact hcc

/-- C9: on commit, the Airtable records carry exactly the added names
(each once) with the fixed status `New SFLA`; the batch decomposition
covers them in order in batches of at most 10, every added name falls
in exactly one batch, and when batch `j` is the first to fail the
batches actually issued are exactly the first `j + 1` (already-issued
batches stay issued, the rest are abandoned); with no failure every
batch is issued. -/
theorem airtable_batch_spec (curS newS : List Shape) :
    ((airtableRecords (addedNames (buildDict curS) (buildDict newS))).map
        AirtableRecord.name = addedNames (buildDict curS) (buildDict newS) ∧
      ∀ r ∈ airtableRecords (addedNames (buildDict curS) (buildDict newS)),
        r.status = "New SFLA") ∧
    ((batches10 (airtableRecords (addedNames (buildDict curS) (buildDict newS)))).flatten =
        airtableRecords (addedNames (buildDict curS) (buildDict newS)) ∧
      ∀ b ∈ batches10 (airtableRecords (addedNames (buildDict curS) (buildDict newS))),
        b.length ≤ 10 ∧ b ≠ []) ∧
    (∀ n ∈ addedNames (buildDict curS) (buildDict newS),
      (batches10 (airtableRecords (addedNames (buildDict curS) (buildDict newS)))).countP
        (fun b => b.any fun r => r.name == n) = 1) ∧
    (∀ fails : ℕ → Bool, ∀ j : ℕ, fails j = true → (∀ i, i < j → fails i = false) →
      runBatches (batches10 (airtableRecords (addedNames (buildDict curS) (buildDict newS))))
          fails 0 =
        (batches10 (airtableRecords (addedNames (buildDict curS) (buildDict newS)))).take
          (j + 1)) ∧
    (∀ fails : ℕ → Bool, (∀ i, fails i = false) →
      runBatches (batches10 (airtableRecords (addedNames (buildDict curS) (buildDict newS))))
          fails 0 =
        batches10 (airtableRecords (addedNames (buildDict curS) (buildDict newS)))) := by
  refine ⟨⟨?_, ?_⟩, ⟨batches10_flatten _, fun b hb => mem_batches10 hb⟩, ?_, ?_, ?_⟩
  · unfold airtableRecords
    rw [List.map_map]
    have hc : (AirtableRecord.name ∘ fun m =>
        ({ name := m, status := "New SFLA" } : AirtableRecord)) = id := rfl
    rw [hc, List.map_id]
  · intro r hr
    simp only [airtableRecords, List.mem_map] at hr
    obtain ⟨m, hm, he⟩ := hr
    rw [← he]
  · intro n hn
    apply countP_batches_one
    rw [batches10_flatten]
    unfold airtableRecords
    rw [List.countP_map]
    have hcp : (addedNames (buildDict curS) (buildDict newS)).countP
        ((fun r : AirtableRecord => r.name == n) ∘ fun m : String =>
          ({ name := m, status := "New SFLA" } : AirtableRecord)) =
        (addedNames (buildDict curS) (buildDict newS)).count n := rfl
    rw [hcp]
    exact List.count_eq_one_of_mem (nodup_addedNames (goodDict_buildDict newS).1) hn
  · intro fails j hj hlt
    apply runBatches_take
    · rw [Nat.zero_add]
      exact hj
    · intro k hk
      rw [Nat.zero_add]
      exact hlt k hk
  · intro fails hf
    exact runBatches_all _ fails hf 0

/-- C9 witness: with current `[]` and incoming `[exB]`, the single
added name `B` appears in exactly one batch. -/
theorem airtable_batch_spec_witness :
    (batches10 (airtableRecords (addedNames (buildDict []) (buildDict [exB])))).countP
      (fun b => b.any fun r => r.name == "B") = 1 :=
  (airtable_batch_spec [] [exB]).2.2.1 "B" (by decide)

/-- `runMain` with its `let` bindings inlined. -/
theorem runMain_eq (curS : List Shape) (rts : List Route) (gps : List GpsPoint)
    (newS : List Shape) (npts : List GpsPoint) (nrts : List Route) (ap : Bool) :
    runMain curS rts gps newS npts nrts ap =
      if ((addedNames (buildDict curS) (buildDict newS)).isEmpty &&
          (modifiedNames (buildDict curS) (buildDict newS)).isEmpty &&
          npts.isEmpty && nrts.isEmpty) then
        { wrote := none, batches := [] }
      else if !ap then
        { wrote := none, batches := [] }
      else
        { wrote := some (dictValues (mergedDict (buildDict curS) (buildDict newS)),
                         (if nrts.isEmpty then rts else nrts),
                         (if npts.isEmpty then gps else npts)),
          batches := batches10 (airtableRecords (addedNames (buildDict curS) (buildDict newS))) } :=
  rfl

/-- The inventory write of a run is either absent or the merged triple. -/
theorem runMain_wrote (curS : List Shape) (rts : List Route) (gps : List GpsPoint)
    (newS : List Shape) (npts : List GpsPoint) (nrts : List Route) (ap : Bool) :
    (runMain curS rts gps newS npts nrts ap).wrote = none ∨
    (runMain curS rts gps newS npts nrts ap).wrote =
      some (dictValues (mergedDict (buildDict curS) (buildDict newS)),
            (if nrts.isEmpty then rts else nrts),
            (if npts.isEmpty then gps else npts)) := by
  rw [runMain_eq]
  by_cases h1 : ((addedNames (buildDict curS) (buildDict newS)).isEmpty &&
      (modifiedNames (buildDict curS) (buildDict newS)).isEmpty &&
      npts.isEmpty && nrts.isEmpty) = true
  · rw [if_pos h1]
    exact Or.inl rfl
  · rw [if_neg h1]
    by_cases h2 : (!ap) = true
    · rw [if_pos h2]
      exact Or.inl rfl
    · rw [if_neg h2]
      exact Or.inr rfl

/-- C10: whenever a run writes the inventory, the written shape list
has pairwise distinct names (the name-keyed dicts deduplicate with
last-occurrence-wins), for arbitrary current and incoming lists. -/
theorem written_shapes_names_nodup (curS : List Shape) (rts : List Route)
    (gps : List GpsPoint) (newS : List Shape) (npts : List GpsPoint)
    (nrts : List Route) (ap : Bool) (w : List Shape × List Route × List GpsPoint)
    (hw : (runMain curS rts gps newS npts nrts ap).wrote = some w) :
    (w.1.map Shape.name).Nodup := by
  rcases runMain_wrote curS rts gps newS npts nrts ap with h | h
  · rw [h] at hw
    cases hw
  · rw [h] at hw
    cases hw
    exact dictValues_names_nodup
      (goodDict_mergedDict (goodDict_buildDict curS) (goodDict_buildDict newS))

/-- C10 witness: the committed run with current `[]` and incoming
`[exB]` writes the shape list `[exB]`, whose name list is nodup. -/
theorem written_shapes_names_nodup_witness :
    ((([exB] : List Shape)).map Shape.name).Nodup :=
  written_shapes_names_nodup [] [] [] [exB] [] [] true ([exB], [], []) (by decide)

end Sfla
